import Mathlib

/-!
Verification development for the conductor-sdk results-catalog publisher and
path resolver (`conductor_sdk/publisher.py`, `conductor_sdk/context.py`).

The Python code is shallowly embedded:
* JSON record values are modelled by `JVal` (integers and strings; the claims
  under study exercise no other value shapes).
* A catalog record (a Python dict) is an insertion-ordered association list
  `List (String × JVal)`; `setKey`/`dictUpdate` mirror `dict.__setitem__` /
  `dict.update` (replacing in place the first binding of an existing key,
  appending new keys at the end).
* The catalog document is a structure with one optional record list per
  category; `none` models a JSON document lacking that key, matching
  `doc.get(k, [])` / `doc.setdefault(k, [])` in the source.
* The GCS object is a `Store`: an optional content plus a generation counter;
  `uploadIfGen` models `upload_from_string(..., if_generation_match=p)`
  (`p = 0` meaning "must not exist").  `Content.invalid` stands for stored
  bytes on which `json.loads` raises.  Serialization followed by re-parsing is
  the identity, so `json.dumps` is modelled as `Content.valid`.
* Fallible Python code (raised exceptions) is modelled with `Except`.
-/

namespace Conductor

/-- Decidable equality for `Except`, used to evaluate concrete runs. -/
instance {ε α : Type} [DecidableEq ε] [DecidableEq α] :
    DecidableEq (Except ε α) := fun x y =>
  match x, y with
  | .ok a, .ok b =>
      if h : a = b then .isTrue (by rw [h])
      else .isFalse (by intro hc; cases hc; exact h rfl)
  | .ok _, .error _ => .isFalse (by intro hc; cases hc)
  | .error _, .ok _ => .isFalse (by intro hc; cases hc)
  | .error e, .error f =>
      if h : e = f then .isTrue (by rw [h])
      else .isFalse (by intro hc; cases hc; exact h rfl)

/-- JSON-ish record field values.  `jnum` covers Python ints, `jstr` strings. -/
inductive JVal where
  | jnum (n : Int)
  | jstr (s : String)
deriving DecidableEq

/-- A catalog record: an insertion-ordered dict, as in the Python source. -/
abbrev Rec := List (String × JVal)

/-- First-binding lookup, mirroring Python `dict.get` for present keys. -/
def lookupKey : Rec → String → Option JVal
  | [], _ => none
  | (k, v) :: rest, key => if k = key then some v else lookupKey rest key

/-- Python `d[k] = v`: replace the first binding of `k` in place, else append. -/
def setKey : Rec → String → JVal → Rec
  | [], k, v => [(k, v)]
  | (k', v') :: rest, k, v =>
      if k' = k then (k, v) :: rest else (k', v') :: setKey rest k v

/-- Python `d.update(e)`: apply `d[k] = v` for each pair of `e` in order. -/
def dictUpdate (d : Rec) (e : Rec) : Rec :=
  e.foldl (fun acc kv => setKey acc kv.1 kv.2) d

/-- The three catalog categories of `publisher.py`. -/
inductive Cat where
  | figures
  | tables
  | artifacts
deriving DecidableEq

/-- The catalog document.  A `none` field models a parsed JSON object that
lacks that key (the source reads categories with `doc.get(k, [])`). -/
structure Doc where
  figures : Option (List Rec)
  tables : Option (List Rec)
  artifacts : Option (List Rec)
deriving DecidableEq

/-- `{"figures": [], "tables": [], "artifacts": []}`, the document used for a
missing catalog object (`_load`, publisher.py:37/45). -/
def emptyDoc : Doc := ⟨some [], some [], some []⟩

/-- `doc.get(category)`. -/
def Doc.get (d : Doc) : Cat → Option (List Rec)
  | .figures => d.figures
  | .tables => d.tables
  | .artifacts => d.artifacts

/-- Replace one category's list. -/
def Doc.set (d : Doc) : Cat → List Rec → Doc
  | .figures, l => ⟨some l, d.tables, d.artifacts⟩
  | .tables, l => ⟨d.figures, some l, d.artifacts⟩
  | .artifacts, l => ⟨d.figures, d.tables, some l⟩

/-- `doc.setdefault(cat, []).append(item)` (publisher.py:75). -/
def setdefaultAppend (d : Doc) (c : Cat) (r : Rec) : Doc :=
  d.set c ((d.get c).getD [] ++ [r])

/-- Error conditions surfaced by the publisher (spec §7 names; the source
raises the corresponding Python/google-api exceptions). -/
inductive PubErr where
  | corruptCatalog
  | concurrentModification
  | valueError
deriving DecidableEq

/-- Python `int(v)` on a record field value. -/
def pyIntE : JVal → Except PubErr Int
  | .jnum n => .ok n
  | .jstr s =>
      match s.toInt? with
      | some n => .ok n
      | none => .error .valueError

/-- `int(x.get("id", 0))` (publisher.py:58). -/
def recIdValE (r : Rec) : Except PubErr Int :=
  pyIntE ((lookupKey r "id").getD (.jnum 0))

/-- The id of each record of a list, left to right, failing at the first
record whose id does not convert (the list comprehension in `_next_id`). -/
def idsListE : List Rec → Except PubErr (List Int)
  | [] => .ok []
  | r :: rest =>
      match recIdValE r with
      | .error e => .error e
      | .ok n =>
          match idsListE rest with
          | .error e => .error e
          | .ok ns => .ok (n :: ns)

/-- The records of all three categories in the order `_next_id` walks them:
`for k in ("figures","tables","artifacts") for x in doc.get(k, [])`. -/
def allRecords (d : Doc) : List Rec :=
  d.figures.getD [] ++ d.tables.getD [] ++ d.artifacts.getD []

/-- All id values of the document, in `_next_id` traversal order. -/
def idValsE (d : Doc) : Except PubErr (List Int) :=
  idsListE (allRecords d)

/-- Python `max` on a nonempty list (`none` on the empty list). -/
def pyMax : List Int → Option Int
  | [] => none
  | x :: xs =>
      match pyMax xs with
      | none => some x
      | some m => some (max x m)

/-- `_next_id` (publisher.py:57-59): `(max(ids) + 1) if ids else 1`. -/
def nextIdE (d : Doc) : Except PubErr Int :=
  match idValsE d with
  | .error e => .error e
  | .ok ids =>
      .ok (match pyMax ids with
           | none => 1
           | some m => m + 1)

/-- Python `s.lstrip("/")`. -/
def stripSlashes (s : String) : String :=
  ⟨s.data.dropWhile (fun c => c = '/')⟩

/-- The record literal built in `_publish` (publisher.py:66-72), before the
`extra` merge.  `created` models `dt.datetime.utcnow().isoformat()`; the
source appends `"Z"` to it. -/
def mkItem (n : Int) (path title desc created : String) : Rec :=
  [("id", .jnum n), ("path", .jstr path), ("title", .jstr title),
   ("desc", .jstr desc), ("created_at", .jstr created)]

/-- One publish request: the arguments of `_publish` plus the wall-clock
reading used for `created_at`. -/
structure Call where
  cat : Cat
  rel : String
  title : String
  desc : String
  extra : Rec
  now : String
deriving DecidableEq

/-- The record built for one call with assigned id `n` (publisher.py:66-74):
`path` is `f"{bucket}/{root}/{rel.lstrip('/')}"`, `created_at` gets the `"Z"`
suffix, and `extra` is merged when non-empty (`if extra: item.update(extra)`). -/
def buildItem (bucket root : String) (c : Call) (n : Int) : Rec :=
  let item0 := mkItem n (bucket ++ "/" ++ root ++ "/" ++ stripSlashes c.rel)
    c.title c.desc (c.now ++ "Z")
  if c.extra.isEmpty then item0 else dictUpdate item0 c.extra

/-- The pure document transformation of `_publish` (publisher.py:61-77):
compute the next id, build the record, and append it to the requested
category via `setdefault`. -/
def docPublishE (bucket root : String) (d : Doc) (c : Call) :
    Except PubErr (Doc × Rec) :=
  match nextIdE d with
  | .error e => .error e
  | .ok n =>
      .ok (setdefaultAppend d c.cat (buildItem bucket root c n),
           buildItem bucket root c n)

/-- The stored object's bytes, seen through `json.loads`: either bytes that
parse to a document, or bytes on which parsing raises. -/
inductive Content where
  | valid (d : Doc)
  | invalid
deriving DecidableEq

/-- The remote object: optional content plus a monotone generation counter.
An absent object has live generation 0, as in the GCS precondition model. -/
structure Store where
  content : Option Content
  counter : Nat
deriving DecidableEq

/-- The generation GCS reports for the object (`0` when absent). -/
def liveGen (s : Store) : Nat :=
  match s.content with
  | none => 0
  | some _ => s.counter

/-- `upload_from_string(..., if_generation_match = p)`: succeeds exactly when
`p` equals the live generation (`p = 0` meaning "object must not exist"),
installing the new content at the next generation. -/
def uploadIfGen (s : Store) (c : Content) (p : Nat) : Option Store :=
  if p = liveGen s then some ⟨some c, s.counter + 1⟩ else none

/-- `json.loads` of the stored content (`_load`, publisher.py:43): raises on
invalid bytes, which the spec names `CorruptCatalog`. -/
def parseContent : Content → Except PubErr Doc
  | .valid d => .ok d
  | .invalid => .error .corruptCatalog

/-- `_load` in online mode (publisher.py:35-45): download, `blob.reload()`,
parse.  Returns the document, the `creating` flag, and the generation the
reload observed at read time.  The source later discards that generation
(see `finishPublish`). -/
def loadPhase (s : Store) : Except PubErr (Doc × Bool × Nat) :=
  match s.content with
  | none => .ok (emptyDoc, true, 0)
  | some c =>
      match parseContent c with
      | .error e => .error e
      | .ok d => .ok (d, false, liveGen s)

/-- The tail of `_publish` + `_save` in online mode (publisher.py:63-76),
run against the store state `s` current at that moment: when not creating,
`blob.reload()` refreshes the generation *now* (publisher.py:65), and the
conditional write uses that refreshed value, not the one from `_load`; when
creating, the write uses `if_generation_match = 0`.  Returns the store after
the call together with the outcome; a failed call leaves the store as it was
(`PreconditionFailed` maps to `ConcurrentModification`). -/
def finishPublish (bucket root : String) (s : Store) (d : Doc)
    (creating : Bool) (c : Call) : Store × Except PubErr Rec :=
  let p := if creating then 0 else liveGen s
  match docPublishE bucket root d c with
  | .error e => (s, .error e)
  | .ok (d', item) =>
      match uploadIfGen s (.valid d') p with
      | some s' => (s', .ok item)
      | none => (s, .error .concurrentModification)

/-- A whole online `_publish` call executed without interference: load and
finish against the same store state. -/
def publishOnline (bucket root : String) (s : Store) (c : Call) :
    Store × Except PubErr Rec :=
  match loadPhase s with
  | .error e => (s, .error e)
  | .ok (d, creating, _) => finishPublish bucket root s d creating c

/-- A sequence of online publish calls, each completing before the next
starts; stops at the first failure. -/
def publishSeqOnline (bucket root : String) (s : Store) :
    List Call → Except PubErr Store
  | [] => .ok s
  | c :: rest =>
      match publishOnline bucket root s c with
      | (s', .ok _) => publishSeqOnline bucket root s' rest
      | (_, .error e) => .error e

/-- `_publish` in offline mode (publisher.py:36-37, 49-51): `_load` always
yields a fresh empty document with `creating = True`, and `_save` surfaces
the would-be document (printed) instead of writing.  The surfaced document
and the returned item are the result. -/
def publishOffline (bucket root : String) (c : Call) :
    Except PubErr (Doc × Rec) :=
  docPublishE bucket root emptyDoc c

/-- The document a publisher would read from a store: the empty document for
an absent object, the parsed content otherwise, `none` if parsing fails. -/
def docOf (s : Store) : Option Doc :=
  match s.content with
  | none => some emptyDoc
  | some (.valid d) => some d
  | some .invalid => none

/-! ## Path resolver (`context.py`, `_resolve_under_data`)

Paths are plain `/`-separated strings; `Path` arithmetic of the source is
modelled as string concatenation (the inputs used below contain no redundant
slashes, where the two coincide). -/

/-- `s` starts with `p`. -/
def strHasPre (p s : String) : Bool := p.data.isPrefixOf s.data

/-- `s.endswith(suf)`. -/
def strEndsW (suf s : String) : Bool := suf.data.isSuffixOf s.data

/-- `Path(s).name`: the final `/`-separated segment. -/
def lastSeg (s : String) : String :=
  ⟨(s.data.reverse.takeWhile (fun c => c ≠ '/')).reverse⟩

/-- Code-point lexicographic `≤` on character lists (the order Python uses
to compare `str` values). -/
def lexLe : List Char → List Char → Bool
  | [], _ => true
  | _ :: _, [] => false
  | a :: as, b :: bs =>
      if a.toNat < b.toNat then true
      else if b.toNat < a.toNat then false
      else lexLe as bs

/-- Code-point lexicographic `≤` on strings. -/
def strLeB (a b : String) : Bool := lexLe a.data b.data

/-- Insert into a `strLeB`-sorted list of strings (stable). -/
def insSortStr (x : String) : List String → List String
  | [] => [x]
  | y :: ys => if strLeB x y then x :: y :: ys else y :: insSortStr x ys

/-- `sorted(...)` on full path strings (code-point lexicographic order, the
order Python `sorted` uses on `str`). -/
def sortStr (l : List String) : List String :=
  l.foldr insSortStr []

/-- The world the resolver runs in: local regular files, local directories,
and the remote bucket's object names. -/
structure World where
  files : List String
  dirs : List String
  blobs : List String
deriving DecidableEq

/-- `Path.exists()` on the mounted filesystem. -/
def pathExistsB (w : World) (p : String) : Bool :=
  w.files.contains p || w.dirs.contains p

/-- `FileNotFoundError` outcomes of the resolver. -/
inductive RErr where
  | notFound
deriving DecidableEq

/-- `ctx.path(rel)`: `Path(mount) / rel.lstrip("/")`. -/
def ctxPath (mount rel : String) : String :=
  mount ++ "/" ++ stripSlashes rel

/-- `_resolve_under_data` in offline mode (context.py:105-126): return the
direct path when it exists, else collect the regular files under
`<root>/data/` whose basename equals the target, sort, and take the first. -/
def resolveLocal (w : World) (mount root rel : String) : Except RErr String :=
  let direct := ctxPath mount (root ++ "/" ++ rel)
  if pathExistsB w direct then .ok direct
  else
    let target := lastSeg rel
    let base := ctxPath mount (root ++ "/data")
    if !pathExistsB w base then .error .notFound
    else
      let hits := sortStr (w.files.filter (fun p =>
        strHasPre (base ++ "/") p && lastSeg p == target))
      match hits with
      | [] => .error .notFound
      | h :: _ => .ok h

/-- `_resolve_under_data` in online mode (context.py:105-108, 127-141): same
direct check, else list the blobs under `<root>/data/`, keep those whose name
ends with `"/" + target` *or with `target` itself* (the source's "cheap
suffix test"), sort, and return the first joined under the mount. -/
def resolveRemote (w : World) (mount root rel : String) : Except RErr String :=
  let direct := ctxPath mount (root ++ "/" ++ rel)
  if pathExistsB w direct then .ok direct
  else
    let target := lastSeg rel
    let pre := root ++ "/data/"
    let listed := w.blobs.filter (fun n => strHasPre pre n)
    let kept := listed.filter (fun n =>
      strEndsW ("/" ++ target) n || strEndsW target n)
    match sortStr kept with
    | [] => .error .notFound
    | m :: _ => .ok (ctxPath mount m)

end Conductor

namespace Conductor

/-! ## Dictionary lemmas -/

theorem lookup_setKey (d : Rec) (k : String) (v : JVal) (key : String) :
    lookupKey (setKey d k v) key = if key = k then some v else lookupKey d key := by
  induction d with
  | nil =>
      by_cases h : key = k
      · simp [setKey, lookupKey, h]
      · simp [setKey, lookupKey, h, Ne.symm h]
  | cons hd tl ih =>
      obtain ⟨k', v'⟩ := hd
      simp only [setKey]
      by_cases hk : k' = k
      · by_cases hkey : key = k
        · simp [hk, hkey, lookupKey]
        · simp [hk, lookupKey, hkey, Ne.symm hkey]
      · by_cases hkey : key = k'
        · have hkk : ¬ key = k := fun hh => hk (hkey.symm.trans hh)
          simp [lookupKey, hkey, hk, hkk]
        · simp [lookupKey, hk, hkey, Ne.symm hkey, ih]

theorem dictUpdate_nil (d : Rec) : dictUpdate d [] = d := rfl

theorem dictUpdate_cons (d : Rec) (k : String) (v : JVal) (e : Rec) :
    dictUpdate d ((k, v) :: e) = dictUpdate (setKey d k v) e := rfl

theorem dictUpdate_append (d : Rec) (a b : Rec) :
    dictUpdate d (a ++ b) = dictUpdate (dictUpdate d a) b := by
  simp [dictUpdate, List.foldl_append]

theorem lookup_dictUpdate_of_not_mem (e : Rec) :
    ∀ (d : Rec) (key : String), key ∉ e.map Prod.fst →
      lookupKey (dictUpdate d e) key = lookupKey d key := by
  induction e with
  | nil => intro d key _; rfl
  | cons kv rest ih =>
      intro d key h
      obtain ⟨k, v⟩ := kv
      simp only [List.map_cons, List.mem_cons] at h
      push_neg at h
      rw [dictUpdate_cons, ih _ _ h.2, lookup_setKey, if_neg h.1]

theorem lookup_dictUpdate_of_mem_nodup (e : Rec) :
    ∀ (d : Rec) (k : String) (v : JVal),
      (e.map Prod.fst).Nodup → (k, v) ∈ e →
      lookupKey (dictUpdate d e) k = some v := by
  induction e with
  | nil => intro d k v _ hmem; cases hmem
  | cons kv rest ih =>
      intro d k v hnd hmem
      obtain ⟨k', v'⟩ := kv
      simp only [List.map_cons, List.nodup_cons] at hnd
      rw [dictUpdate_cons]
      rcases List.mem_cons.mp hmem with heq | hmem'
      · have hk : k = k' := congrArg Prod.fst heq
        have hv : v = v' := congrArg Prod.snd heq
        subst hk
        subst hv
        rw [lookup_dictUpdate_of_not_mem rest _ _ hnd.1, lookup_setKey]
        simp
      · exact ih _ _ _ hnd.2 hmem'

theorem lookup_id_mkItem (n : Int) (p t d ca : String) :
    lookupKey (mkItem n p t d ca) "id" = some (.jnum n) := rfl

theorem lookup_id_item (n : Int) (p t d ca : String) (e : Rec)
    (he : "id" ∉ e.map Prod.fst) :
    lookupKey (if e.isEmpty then mkItem n p t d ca
               else dictUpdate (mkItem n p t d ca) e) "id" = some (.jnum n) := by
  cases e with
  | nil => exact lookup_id_mkItem n p t d ca
  | cons kv rest =>
      rw [if_neg (by simp)]
      rw [lookup_dictUpdate_of_not_mem _ _ _ he, lookup_id_mkItem]

theorem recIdVal_item (n : Int) (p t d ca : String) (e : Rec)
    (he : "id" ∉ e.map Prod.fst) :
    recIdValE (if e.isEmpty then mkItem n p t d ca
               else dictUpdate (mkItem n p t d ca) e) = .ok n := by
  rw [recIdValE, lookup_id_item n p t d ca e he]
  rfl

/-! ## Id-list lemmas -/

theorem idsListE_append_ok {xs ys : List Rec} {a b : List Int}
    (ha : idsListE xs = .ok a) (hb : idsListE ys = .ok b) :
    idsListE (xs ++ ys) = .ok (a ++ b) := by
  induction xs generalizing a with
  | nil =>
      cases ha
      simpa using hb
  | cons r rest ih =>
      rw [idsListE] at ha
      cases h1 : recIdValE r with
      | error e => rw [h1] at ha; cases ha
      | ok n =>
          rw [h1] at ha
          cases h2 : idsListE rest with
          | error e => rw [h2] at ha; cases ha
          | ok ns =>
              rw [h2] at ha
              cases ha
              rw [List.cons_append, idsListE, h1, ih h2]
              rfl

theorem idsListE_append_inv {xs ys : List Rec} {l : List Int}
    (h : idsListE (xs ++ ys) = .ok l) :
    ∃ a b, idsListE xs = .ok a ∧ idsListE ys = .ok b ∧ l = a ++ b := by
  induction xs generalizing l with
  | nil => exact ⟨[], l, rfl, by simpa using h, rfl⟩
  | cons r rest ih =>
      rw [List.cons_append, idsListE] at h
      cases h1 : recIdValE r with
      | error e => rw [h1] at h; cases h
      | ok n =>
          rw [h1] at h
          cases h2 : idsListE (rest ++ ys) with
          | error e => rw [h2] at h; cases h
          | ok ns =>
              rw [h2] at h
              cases h
              obtain ⟨a, b, ha, hb, rfl⟩ := ih h2
              exact ⟨n :: a, b, by rw [idsListE, h1, ha], hb, rfl⟩

theorem idsListE_singleton {r : Rec} {n : Int} (h : recIdValE r = .ok n) :
    idsListE [r] = .ok [n] := by
  rw [idsListE, h, idsListE]

/-! ## `pyMax` lemmas -/

theorem pyMax_eq_none_iff (l : List Int) : pyMax l = none ↔ l = [] := by
  cases l with
  | nil => simp [pyMax]
  | cons x xs =>
      simp only [pyMax]
      cases h : pyMax xs <;> simp

theorem pyMax_mem_le {l : List Int} {m : Int} (h : pyMax l = some m) :
    m ∈ l ∧ ∀ y ∈ l, y ≤ m := by
  induction l generalizing m with
  | nil => cases h
  | cons x xs ih =>
      rw [pyMax] at h
      cases hx : pyMax xs with
      | none =>
          rw [hx] at h
          cases h
          have : xs = [] := (pyMax_eq_none_iff xs).mp hx
          subst this
          exact ⟨List.mem_singleton_self _, by simp⟩
      | some m' =>
          rw [hx] at h
          cases h
          obtain ⟨hm', hb'⟩ := ih hx
          constructor
          · rcases max_choice x m' with h | h <;> rw [h]
            · exact List.mem_cons_self x xs
            · exact List.mem_cons_of_mem x hm'
          · intro y hy
            rcases List.mem_cons.mp hy with rfl | hy
            · exact le_max_left _ _
            · exact le_trans (hb' y hy) (le_max_right _ _)

theorem pyMax_of_mem_of_le {l : List Int} {m : Int}
    (hm : m ∈ l) (hb : ∀ y ∈ l, y ≤ m) : pyMax l = some m := by
  induction l with
  | nil => cases hm
  | cons x xs ih =>
      rw [pyMax]
      cases hx : pyMax xs with
      | none =>
          have : xs = [] := (pyMax_eq_none_iff xs).mp hx
          subst this
          rcases List.mem_cons.mp hm with rfl | hm
          · rfl
          · cases hm
      | some m' =>
          obtain ⟨hm'mem, _⟩ := pyMax_mem_le hx
          have hm'le : m' ≤ m := hb m' (List.mem_cons_of_mem x hm'mem)
          have hxle : x ≤ m := hb x (List.mem_cons_self x xs)
          have hle : max x m' ≤ m := max_le hxle hm'le
          have hge : m ≤ max x m' := by
            rcases List.mem_cons.mp hm with rfl | hmem
            · exact le_max_left _ _
            · exact le_trans ((pyMax_mem_le hx).2 m hmem) (le_max_right _ _)
          exact congrArg some (le_antisymm hle hge)

/-! ## `iota` (the list `[1, …, k]` as integers) -/

def iota : Nat → List Int
  | 0 => []
  | k + 1 => iota k ++ [(k : Int) + 1]

theorem mem_iota (x : Int) (k : Nat) : x ∈ iota k ↔ 1 ≤ x ∧ x ≤ (k : Int) := by
  induction k with
  | zero =>
      simp only [iota, List.not_mem_nil, false_iff, Nat.cast_zero]
      omega
  | succ k ih =>
      simp only [iota, List.mem_append, List.mem_singleton, ih, Nat.cast_succ]
      omega

theorem iota_zero : iota 0 = [] := rfl

theorem iota_succ (k : Nat) : iota (k + 1) = iota k ++ [(k : Int) + 1] := rfl

/-! ## Permutation helpers -/

theorem cons_perm_append (x : Int) (ys : List Int) :
    (x :: ys).Perm (ys ++ [x]) := by
  induction ys with
  | nil => exact List.Perm.refl _
  | cons y ys ih =>
      exact (List.Perm.swap y x ys).trans (ih.cons y)

theorem perm_pull_out (x : Int) (a rest : List Int) :
    (a ++ (x :: rest)).Perm ((a ++ rest) ++ [x]) := by
  rw [List.append_assoc]
  exact List.Perm.append_left a (cons_perm_append x rest)

theorem perm_append_mid₁ (a b c : List Int) (x : Int) :
    (((a ++ [x]) ++ b) ++ c).Perm (((a ++ b) ++ c) ++ [x]) := by
  have h := perm_pull_out x a (b ++ c)
  have e1 : ((a ++ [x]) ++ b) ++ c = a ++ (x :: (b ++ c)) := by simp
  have e2 : ((a ++ b) ++ c) ++ [x] = (a ++ (b ++ c)) ++ [x] := by simp
  rw [e1, e2]
  exact h

theorem perm_append_mid₂ (a b c : List Int) (x : Int) :
    ((a ++ (b ++ [x])) ++ c).Perm (((a ++ b) ++ c) ++ [x]) := by
  have h := perm_pull_out x (a ++ b) c
  have e1 : (a ++ (b ++ [x])) ++ c = (a ++ b) ++ (x :: c) := by simp
  rw [e1]
  exact h

theorem perm_append_mid₃ (a b c : List Int) (x : Int) :
    ((a ++ b) ++ (c ++ [x])).Perm (((a ++ b) ++ c) ++ [x]) := by
  rw [← List.append_assoc]

/-! ## The combined-id invariant and the publish step -/

theorem lookup_id_buildItem (bucket root : String) (c : Call) (n : Int)
    (hid : "id" ∉ c.extra.map Prod.fst) :
    lookupKey (buildItem bucket root c n) "id" = some (.jnum n) := by
  simp only [buildItem]
  exact lookup_id_item n _ c.title c.desc _ c.extra hid

theorem recIdVal_buildItem (bucket root : String) (c : Call) (n : Int)
    (hid : "id" ∉ c.extra.map Prod.fst) :
    recIdValE (buildItem bucket root c n) = .ok n := by
  rw [recIdValE, lookup_id_buildItem bucket root c n hid]
  rfl

theorem nextId_of_inv {d : Doc} {k : Nat} {l : List Int}
    (hl : idValsE d = .ok l) (hp : l.Perm (iota k)) :
    nextIdE d = .ok ((k : Int) + 1) := by
  simp only [nextIdE, hl]
  cases k with
  | zero =>
      rw [iota_zero, List.perm_nil] at hp
      subst hp
      simp [pyMax]
  | succ j =>
      have hmem : ((j : Int) + 1) ∈ l := by
        rw [hp.mem_iff, mem_iota]
        constructor
        · omega
        · push_cast
          omega
      have hbound : ∀ y ∈ l, y ≤ (j : Int) + 1 := by
        intro y hy
        rw [hp.mem_iff, mem_iota] at hy
        push_cast at hy
        omega
      simp only [pyMax_of_mem_of_le hmem hbound, Nat.cast_succ]

theorem docPublish_step (bucket root : String) (d : Doc) (c : Call) (k : Nat)
    (hinv : ∃ l, idValsE d = .ok l ∧ l.Perm (iota k))
    (hid : "id" ∉ c.extra.map Prod.fst) :
    ∃ item, docPublishE bucket root d c =
        .ok (setdefaultAppend d c.cat item, item) ∧
      (∃ l', idValsE (setdefaultAppend d c.cat item) = .ok l' ∧
        l'.Perm (iota (k + 1))) ∧
      lookupKey item "id" = some (.jnum ((k : Int) + 1)) := by
  obtain ⟨l, hl, hp⟩ := hinv
  have hnext : nextIdE d = .ok ((k : Int) + 1) := nextId_of_inv hl hp
  refine ⟨buildItem bucket root c ((k : Int) + 1), ?_, ?_, ?_⟩
  · simp only [docPublishE, hnext]
  · have hitem : recIdValE (buildItem bucket root c ((k : Int) + 1))
        = .ok ((k : Int) + 1) := recIdVal_buildItem bucket root c _ hid
    have hl0 : idsListE ((d.figures.getD [] ++ d.tables.getD [])
        ++ d.artifacts.getD []) = .ok l := hl
    obtain ⟨x, la, hx, hA, rfl⟩ := idsListE_append_inv hl0
    obtain ⟨lf, lt, hF, hT, rfl⟩ := idsListE_append_inv hx
    cases hc : c.cat with
    | figures =>
        refine ⟨((lf ++ [(k : Int) + 1]) ++ lt) ++ la, ?_, ?_⟩
        · have hall : allRecords (setdefaultAppend d .figures
              (buildItem bucket root c ((k : Int) + 1)))
              = ((d.figures.getD [] ++ [buildItem bucket root c ((k : Int) + 1)])
                 ++ d.tables.getD []) ++ d.artifacts.getD [] := by
            simp [allRecords, setdefaultAppend, Doc.set, Doc.get]
          rw [idValsE, hall]
          exact idsListE_append_ok
            (idsListE_append_ok
              (idsListE_append_ok hF (idsListE_singleton hitem)) hT) hA
        · rw [iota_succ]
          exact (perm_append_mid₁ lf lt la _).trans (hp.append_right _)
    | tables =>
        refine ⟨(lf ++ (lt ++ [(k : Int) + 1])) ++ la, ?_, ?_⟩
        · have hall : allRecords (setdefaultAppend d .tables
              (buildItem bucket root c ((k : Int) + 1)))
              = (d.figures.getD []
                 ++ (d.tables.getD [] ++ [buildItem bucket root c ((k : Int) + 1)]))
                ++ d.artifacts.getD [] := by
            simp [allRecords, setdefaultAppend, Doc.set, Doc.get]
          rw [idValsE, hall]
          exact idsListE_append_ok
            (idsListE_append_ok hF
              (idsListE_append_ok hT (idsListE_singleton hitem))) hA
        · rw [iota_succ]
          exact (perm_append_mid₂ lf lt la _).trans (hp.append_right _)
    | artifacts =>
        refine ⟨(lf ++ lt) ++ (la ++ [(k : Int) + 1]), ?_, ?_⟩
        · have hall : allRecords (setdefaultAppend d .artifacts
              (buildItem bucket root c ((k : Int) + 1)))
              = (d.figures.getD [] ++ d.tables.getD [])
                ++ (d.artifacts.getD []
                    ++ [buildItem bucket root c ((k : Int) + 1)]) := by
            simp [allRecords, setdefaultAppend, Doc.set, Doc.get]
          rw [idValsE, hall]
          exact idsListE_append_ok hx
            (idsListE_append_ok hA (idsListE_singleton hitem))
        · rw [iota_succ]
          exact (perm_append_mid₃ lf lt la _).trans (hp.append_right _)
  · exact lookup_id_buildItem bucket root c _ hid

/-- The store holds (or, when absent, will be read as) a document whose
combined id list is a permutation of `[1, …, k]`. -/
def StoreInv (k : Nat) (s : Store) : Prop :=
  ∃ d l, docOf s = some d ∧ idValsE d = .ok l ∧ l.Perm (iota k)

theorem publishOnline_step (bucket root : String) (s : Store) (c : Call)
    (k : Nat) (hinv : StoreInv k s) (hid : "id" ∉ c.extra.map Prod.fst) :
    ∃ s' item, publishOnline bucket root s c = (s', .ok item) ∧
      StoreInv (k + 1) s' := by
  obtain ⟨d, l, hd, hl, hp⟩ := hinv
  obtain ⟨item, hpub, hinv', _⟩ :=
    docPublish_step bucket root d c k ⟨l, hl, hp⟩ hid
  obtain ⟨l', h1, h2⟩ := hinv'
  cases hs : s.content with
  | none =>
      have hde : emptyDoc = d := by
        simp only [docOf, hs, Option.some.injEq] at hd
        exact hd
      subst hde
      refine ⟨⟨some (.valid (setdefaultAppend emptyDoc c.cat item)),
        s.counter + 1⟩, item, ?_, ?_⟩
      · simp [publishOnline, loadPhase, hs, finishPublish, hpub, uploadIfGen,
          liveGen]
      · exact ⟨setdefaultAppend emptyDoc c.cat item, l', by simp [docOf],
          h1, h2⟩
  | some ct =>
      cases ct with
      | invalid => simp [docOf, hs] at hd
      | valid dd =>
          have hde : dd = d := by
            simp only [docOf, hs, Option.some.injEq] at hd
            exact hd
          subst hde
          refine ⟨⟨some (.valid (setdefaultAppend dd c.cat item)), s.counter + 1⟩,
            item, ?_, ?_⟩
          · simp [publishOnline, loadPhase, hs, parseContent, finishPublish,
              hpub, uploadIfGen, liveGen]
          · exact ⟨setdefaultAppend dd c.cat item, l', by simp [docOf], h1, h2⟩

theorem publishSeq_inv (bucket root : String) :
    ∀ (calls : List Call) (s : Store) (k : Nat),
      StoreInv k s → (∀ c ∈ calls, "id" ∉ c.extra.map Prod.fst) →
      ∃ s', publishSeqOnline bucket root s calls = .ok s' ∧
        StoreInv (k + calls.length) s' := by
  intro calls
  induction calls with
  | nil =>
      intro s k hinv _
      exact ⟨s, rfl, by simpa using hinv⟩
  | cons c rest ih =>
      intro s k hinv hid
      obtain ⟨s1, item, hstep, hinv1⟩ :=
        publishOnline_step bucket root s c k hinv (hid c (List.mem_cons_self c rest))
      obtain ⟨s', hseq, hinv'⟩ :=
        ih s1 (k + 1) hinv1 (fun c2 hc2 => hid c2 (List.mem_cons_of_mem c hc2))
      refine ⟨s', ?_, ?_⟩
      · rw [publishSeqOnline, hstep]
        exact hseq
      · have harith : k + (c :: rest).length = k + 1 + rest.length := by
          simp [List.length_cons]
          omega
        rw [harith]
        exact hinv'

/-! ## Field-for-field comparison modulo `created_at` -/

/-- Drop every `created_at` binding of a record, keeping field order. -/
def scrubRec : Rec → Rec
  | [] => []
  | (k, v) :: rest =>
      if k = "created_at" then scrubRec rest else (k, v) :: scrubRec rest

/-- Drop `created_at` from every record of the document. -/
def scrubDoc (d : Doc) : Doc :=
  ⟨d.figures.map (List.map scrubRec), d.tables.map (List.map scrubRec),
   d.artifacts.map (List.map scrubRec)⟩

theorem scrubRec_setKey_ne (d : Rec) (k : String) (v : JVal)
    (hk : ¬ k = "created_at") :
    scrubRec (setKey d k v) = setKey (scrubRec d) k v := by
  induction d with
  | nil => simp [setKey, scrubRec, hk]
  | cons hd tl ih =>
      obtain ⟨k', v'⟩ := hd
      by_cases h1 : k' = k
      · have hk'c : ¬ k' = "created_at" := fun hh => hk (h1.symm.trans hh)
        simp [setKey, scrubRec, h1, hk, hk'c]
      · by_cases h2 : k' = "created_at"
        · have hck : ¬ "created_at" = k := h2 ▸ h1
          simp [setKey, scrubRec, h1, h2, hck, ih]
        · simp [setKey, scrubRec, h1, h2, ih]

theorem scrubRec_setKey_created (d : Rec) (v : JVal) :
    scrubRec (setKey d "created_at" v) = scrubRec d := by
  induction d with
  | nil => simp [setKey, scrubRec]
  | cons hd tl ih =>
      obtain ⟨k', v'⟩ := hd
      by_cases h1 : k' = "created_at"
      · simp [setKey, scrubRec, h1, ih]
      · simp [setKey, scrubRec, h1, ih]

theorem scrubRec_dictUpdate_congr (e : Rec) :
    ∀ d1 d2, scrubRec d1 = scrubRec d2 →
      scrubRec (dictUpdate d1 e) = scrubRec (dictUpdate d2 e) := by
  induction e with
  | nil => intro d1 d2 h; exact h
  | cons kv rest ih =>
      intro d1 d2 h
      obtain ⟨k, v⟩ := kv
      rw [dictUpdate_cons, dictUpdate_cons]
      apply ih
      by_cases hk : k = "created_at"
      · rw [hk, scrubRec_setKey_created, scrubRec_setKey_created]
        exact h
      · rw [scrubRec_setKey_ne _ _ _ hk, scrubRec_setKey_ne _ _ _ hk, h]

theorem scrubRec_buildItem (bucket root : String) (cat : Cat)
    (rel ti de : String) (ex : Rec) (now1 now2 : String) (n : Int) :
    scrubRec (buildItem bucket root ⟨cat, rel, ti, de, ex, now1⟩ n)
      = scrubRec (buildItem bucket root ⟨cat, rel, ti, de, ex, now2⟩ n) := by
  simp only [buildItem]
  cases ex with
  | nil => rfl
  | cons kv rest =>
      rw [if_neg (by simp), if_neg (by simp)]
      exact scrubRec_dictUpdate_congr _ _ _ rfl

/-! ## Small document-access lemmas -/

theorem emptyDoc_get (c : Cat) : emptyDoc.get c = some [] := by
  cases c <;> rfl

theorem get_setdefaultAppend_self (d : Doc) (c1 : Cat) (r : Rec) :
    (setdefaultAppend d c1 r).get c1 = some ((d.get c1).getD [] ++ [r]) := by
  cases c1 <;> simp [setdefaultAppend, Doc.set, Doc.get]

theorem get_setdefaultAppend_ne (d : Doc) (c1 c2 : Cat) (r : Rec)
    (h : c2 ≠ c1) : (setdefaultAppend d c1 r).get c2 = d.get c2 := by
  cases c1 <;> cases c2 <;> simp_all [setdefaultAppend, Doc.set, Doc.get]

/-! ## Claim theorems -/

/-- **C2.** For any sequence of `N` publish calls against an initially absent
catalog object, interleaved across the categories at will (with `extra`
respecting the reserved `id` field, as the spec's data model requires of
callers), every call succeeds and the combined id values of the resulting
document are exactly `{1, …, N}`: a permutation of `[1, …, N]`, hence no
gaps and no repeats; each new record received id `1 + max(existing ids)`
(`nextIdE`), or `1` on the empty document. -/
theorem publishSeq_ids_exactly_one_to_n (bucket root : String)
    (calls : List Call)
    (hid : ∀ c ∈ calls, "id" ∉ c.extra.map Prod.fst) :
    ∃ s' d l, publishSeqOnline bucket root ⟨none, 0⟩ calls = .ok s' ∧
      docOf s' = some d ∧ idValsE d = .ok l ∧ l.Perm (iota calls.length) := by
  have h0 : StoreInv 0 ⟨none, 0⟩ :=
    ⟨emptyDoc, [], rfl, rfl, by rw [iota_zero]⟩
  obtain ⟨s', hseq, d, l, hd, hl, hp⟩ :=
    publishSeq_inv bucket root calls ⟨none, 0⟩ 0 h0 hid
  exact ⟨s', d, l, hseq, hd, hl, by simpa using hp⟩

/-- Witness for C2's theorem: three concrete calls, one per category. -/
theorem publishSeq_ids_exactly_one_to_n_witness :
    (∀ c ∈ ([⟨.figures, "f.png", "", "", [], "T1"⟩,
             ⟨.tables, "t.csv", "", "", [], "T2"⟩,
             ⟨.artifacts, "a.bin", "", "", [], "T3"⟩] : List Call),
        "id" ∉ c.extra.map Prod.fst) ∧
    (∃ s' d l,
      publishSeqOnline "bkt" "req" ⟨none, 0⟩
          [⟨.figures, "f.png", "", "", [], "T1"⟩,
           ⟨.tables, "t.csv", "", "", [], "T2"⟩,
           ⟨.artifacts, "a.bin", "", "", [], "T3"⟩] = .ok s' ∧
      docOf s' = some d ∧ idValsE d = .ok l ∧ l.Perm (iota 3)) :=
  ⟨by decide, publishSeq_ids_exactly_one_to_n "bkt" "req" _ (by decide)⟩

/-- **C5.** Publishing when the catalog object does not exist reads the empty
document (`creating = true`), writes with the must-not-exist precondition,
and produces a document with exactly one record, in the requested category,
with id 1; that create-only write fails with `ConcurrentModification`
whenever the object does exist at write time. -/
theorem publish_absent_creates_single_record (bucket root : String) (g : Nat)
    (c : Call) (hid : "id" ∉ c.extra.map Prod.fst) :
    (loadPhase ⟨none, g⟩ = .ok (emptyDoc, true, 0) ∧
     ∃ item d', publishOnline bucket root ⟨none, g⟩ c
         = (⟨some (.valid d'), g + 1⟩, .ok item) ∧
       d'.get c.cat = some [item] ∧
       (∀ c2, c2 ≠ c.cat → d'.get c2 = some []) ∧
       lookupKey item "id" = some (.jnum 1)) ∧
    (∀ s' : Store, s'.content.isSome = true → 0 < s'.counter →
      (finishPublish bucket root s' emptyDoc true c).2
        = .error .concurrentModification) := by
  have h0 : ∃ l, idValsE emptyDoc = .ok l ∧ l.Perm (iota 0) :=
    ⟨[], rfl, by rw [iota_zero]⟩
  obtain ⟨item, hpub, _, hlook⟩ := docPublish_step bucket root emptyDoc c 0 h0 hid
  refine ⟨⟨rfl, item, setdefaultAppend emptyDoc c.cat item, ?_, ?_, ?_, ?_⟩, ?_⟩
  · simp [publishOnline, loadPhase, finishPublish, hpub, uploadIfGen, liveGen]
  · rw [get_setdefaultAppend_self, emptyDoc_get]
    rfl
  · intro c2 hne
    rw [get_setdefaultAppend_ne _ _ _ _ hne, emptyDoc_get]
  · simpa using hlook
  · intro s' hsome hpos
    obtain ⟨ct, hct⟩ := Option.isSome_iff_exists.mp hsome
    have hlg : liveGen s' = s'.counter := by simp [liveGen, hct]
    have hne0 : ¬ ((0 : Nat) = s'.counter) := by omega
    simp [finishPublish, hpub, uploadIfGen, hlg, hne0]

/-- Witness for C5's theorem: a concrete call with empty `extra` against the
absent store. -/
theorem publish_absent_creates_single_record_witness :
    ("id" ∉ (([] : Rec)).map Prod.fst) ∧
    ((loadPhase ⟨none, 0⟩ = .ok (emptyDoc, true, 0) ∧
      ∃ item d',
        publishOnline "bkt" "req" ⟨none, 0⟩ ⟨.tables, "t.csv", "ti", "de", [], "T"⟩
          = (⟨some (.valid d'), 0 + 1⟩, .ok item) ∧
        d'.get .tables = some [item] ∧
        (∀ c2, c2 ≠ Cat.tables → d'.get c2 = some []) ∧
        lookupKey item "id" = some (.jnum 1)) ∧
     (∀ s' : Store, s'.content.isSome = true → 0 < s'.counter →
       (finishPublish "bkt" "req" s' emptyDoc true
           ⟨.tables, "t.csv", "ti", "de", [], "T"⟩).2
         = .error .concurrentModification)) :=
  ⟨by decide,
   publish_absent_creates_single_record "bkt" "req" 0
     ⟨.tables, "t.csv", "ti", "de", [], "T"⟩ (by decide)⟩

/-- **C6.** When the catalog object exists but its content does not parse,
the publish call surfaces `CorruptCatalog` and the store is left unchanged:
the publisher never replaces unparseable content with an empty or repaired
document. -/
theorem publish_corrupt_catalog_fails_closed (bucket root : String)
    (s : Store) (c : Call) (h : s.content = some .invalid) :
    publishOnline bucket root s c = (s, .error .corruptCatalog) := by
  simp [publishOnline, loadPhase, parseContent, h]

/-- Witness for C6's theorem: a concrete store holding unparseable content. -/
theorem publish_corrupt_catalog_fails_closed_witness :
    ((⟨some .invalid, 7⟩ : Store).content = some Content.invalid) ∧
    publishOnline "bkt" "req" ⟨some .invalid, 7⟩ ⟨.figures, "f", "", "", [], "T"⟩
      = (⟨some .invalid, 7⟩, .error .corruptCatalog) :=
  ⟨rfl, publish_corrupt_catalog_fails_closed "bkt" "req" _ _ rfl⟩

/-- **C9.** On an existing document that lacks one or more category keys
(`none` fields), publish does not fail: missing categories contribute no ids
to the next-id computation (the id list equals that of the document with
missing keys read as empty), the requested category is created as a
one-element list holding the new record when missing, and the other
categories are left unchanged. -/
theorem publish_tolerates_missing_category_keys (bucket root : String)
    (s : Store) (d : Doc) (c : Call) (l : List Int)
    (hs : s.content = some (.valid d)) (hl : idValsE d = .ok l) :
    idValsE d = idValsE ⟨some (d.figures.getD []), some (d.tables.getD []),
      some (d.artifacts.getD [])⟩ ∧
    ∃ s' item d', publishOnline bucket root s c = (s', .ok item) ∧
      s'.content = some (.valid d') ∧
      (d.get c.cat = none → d'.get c.cat = some [item]) ∧
      (∀ c2, c2 ≠ c.cat → d'.get c2 = d.get c2) := by
  refine ⟨rfl, ?_⟩
  have hn : nextIdE d = .ok (match pyMax l with | none => 1 | some m => m + 1) := by
    simp only [nextIdE, hl]
  refine ⟨⟨some (.valid (setdefaultAppend d c.cat
      (buildItem bucket root c (match pyMax l with | none => 1 | some m => m + 1)))),
      s.counter + 1⟩,
    buildItem bucket root c (match pyMax l with | none => 1 | some m => m + 1),
    setdefaultAppend d c.cat
      (buildItem bucket root c (match pyMax l with | none => 1 | some m => m + 1)),
    ?_, rfl, ?_, ?_⟩
  · simp [publishOnline, loadPhase, hs, parseContent, finishPublish,
      docPublishE, hn, uploadIfGen, liveGen]
  · intro hnone
    rw [get_setdefaultAppend_self, hnone]
    rfl
  · intro c2 hne
    exact get_setdefaultAppend_ne d c.cat c2 _ hne

/-- Witness for C9's theorem: a stored document with `figures` and `tables`
keys missing entirely, published into the missing `figures` category. -/
theorem publish_tolerates_missing_category_keys_witness :
    ((⟨some (.valid ⟨none, none, some [[("id", .jnum 2)]]⟩), 5⟩ : Store).content
        = some (.valid ⟨none, none, some [[("id", .jnum 2)]]⟩)) ∧
    (idValsE ⟨none, none, some [[("id", .jnum 2)]]⟩ = .ok [2]) ∧
    (idValsE ⟨none, none, some [[("id", .jnum 2)]]⟩
        = idValsE ⟨some [], some [], some [[("id", .jnum 2)]]⟩ ∧
     ∃ s' item d',
       publishOnline "bkt" "req" ⟨some (.valid ⟨none, none, some [[("id", .jnum 2)]]⟩), 5⟩
           ⟨.figures, "f.png", "", "", [], "T"⟩ = (s', .ok item) ∧
       s'.content = some (.valid d') ∧
       ((⟨none, none, some [[("id", .jnum 2)]]⟩ : Doc).get .figures = none →
         d'.get .figures = some [item]) ∧
       (∀ c2, c2 ≠ Cat.figures →
         d'.get c2 = (⟨none, none, some [[("id", .jnum 2)]]⟩ : Doc).get c2)) :=
  ⟨rfl, by decide,
   publish_tolerates_missing_category_keys "bkt" "req" _ _
     ⟨.figures, "f.png", "", "", [], "T"⟩ [2] rfl (by decide)⟩

/-- **C10 (amended).** For every document whose existing id values (a record
lacking `id` contributing 0) are all nonnegative, the id assigned to a newly
published record is at least 1.  (The unrestricted claim fails: a stored
record with a negative id makes `_next_id` return a nonpositive id.) -/
theorem nextId_at_least_one_of_nonneg_ids (d : Doc) (l : List Int)
    (hl : idValsE d = .ok l) (hnn : ∀ i ∈ l, 0 ≤ i) :
    ∃ n, nextIdE d = .ok n ∧ 1 ≤ n := by
  cases hm : pyMax l with
  | none => exact ⟨1, by simp only [nextIdE, hl, hm], by omega⟩
  | some m =>
      obtain ⟨hmem, _⟩ := pyMax_mem_le hm
      have hge := hnn m hmem
      exact ⟨m + 1, by simp only [nextIdE, hl, hm], by omega⟩

/-- Witness for C10's amended theorem: a document whose only record lacks an
`id` field entirely (contributing 0), where the next id is 1. -/
theorem nextId_at_least_one_of_nonneg_ids_witness :
    idValsE ⟨some [[("path", .jstr "p")]], none, none⟩ = .ok [0] ∧
    (∀ i ∈ ([0] : List Int), 0 ≤ i) ∧
    (∃ n, nextIdE ⟨some [[("path", .jstr "p")]], none, none⟩ = .ok n ∧ 1 ≤ n) :=
  ⟨by decide, by decide,
   nextId_at_least_one_of_nonneg_ids _ [0] (by decide) (by decide)⟩

/-- **C10 (counterexample).** A document holding a record with id `-5` makes
the code assign id `-4` to the newly published record, which is not a
positive integer: the claim fails as stated for such documents. -/
theorem negative_id_yields_nonpositive_next_id :
    docPublishE "b" "r" ⟨some [[("id", .jnum (-5))]], some [], some []⟩
        ⟨.figures, "x", "", "", [], "T"⟩
      = .ok (⟨some [[("id", .jnum (-5))],
                    [("id", .jnum (-4)), ("path", .jstr "b/r/x"),
                     ("title", .jstr ""), ("desc", .jstr ""),
                     ("created_at", .jstr "TZ")]], some [], some []⟩,
             [("id", .jnum (-4)), ("path", .jstr "b/r/x"),
              ("title", .jstr ""), ("desc", .jstr ""),
              ("created_at", .jstr "TZ")]) ∧
    ¬ (1 ≤ (-4 : Int)) := by decide

/-- **C8 (counterexample).** A publish call whose `extra` binds the reserved
key `id` does not fail with `InvalidArgument`: it succeeds, and the extra's
value has replaced the reserved field in the produced record. -/
theorem extra_id_collision_not_rejected :
    docPublishE "b" "r" emptyDoc ⟨.figures, "x.png", "t", "d",
        [("id", .jnum 999)], "T"⟩
      = .ok (⟨some [[("id", .jnum 999), ("path", .jstr "b/r/x.png"),
                     ("title", .jstr "t"), ("desc", .jstr "d"),
                     ("created_at", .jstr "TZ")]], some [], some []⟩,
             [("id", .jnum 999), ("path", .jstr "b/r/x.png"),
              ("title", .jstr "t"), ("desc", .jstr "d"),
              ("created_at", .jstr "TZ")]) := by decide

/-- **C8 (amended).** A publish call whose `extra` binds a key that collides
with a reserved record field succeeds — no `InvalidArgument` — and the
produced record's field for that key holds the extra's value: `_publish`
blindly merges `extra` over the record (publisher.py:73-74).  Stated for any
bound key at any position of `extra` (with `extra`'s keys distinct, as
Python keyword arguments guarantee), so it covers collisions with each of
the five reserved fields `id`, `path`, `title`, `desc`, `created_at`. -/
theorem extra_overrides_reserved_field (bucket root : String) (d : Doc)
    (cat : Cat) (rel ti de now : String) (e : Rec) (k : String) (v : JVal)
    (l : List Int) (hl : idValsE d = .ok l)
    (hnd : (e.map Prod.fst).Nodup) (hmem : (k, v) ∈ e) :
    ∃ d' item,
      docPublishE bucket root d ⟨cat, rel, ti, de, e, now⟩ = .ok (d', item) ∧
      lookupKey item k = some v := by
  have hn : nextIdE d
      = .ok (match pyMax l with | none => 1 | some m => m + 1) := by
    simp only [nextIdE, hl]
  refine ⟨setdefaultAppend d cat
      (buildItem bucket root ⟨cat, rel, ti, de, e, now⟩
        (match pyMax l with | none => 1 | some m => m + 1)),
    buildItem bucket root ⟨cat, rel, ti, de, e, now⟩
      (match pyMax l with | none => 1 | some m => m + 1), ?_, ?_⟩
  · simp only [docPublishE, hn]
  · have hne : ¬ ((e : Rec)).isEmpty = true := by
      cases e with
      | nil => cases hmem
      | cons a as => simp
    simp only [buildItem, if_neg hne]
    exact lookup_dictUpdate_of_mem_nodup e _ k v hnd hmem

/-- Witness for C8's amended theorem: a collision on the reserved field
`path`, bound first in a two-key `extra` (not in final position). -/
theorem extra_overrides_reserved_field_witness :
    idValsE emptyDoc = .ok [] ∧
    ((([("path", JVal.jstr "HIJACK"), ("note", JVal.jstr "n")] : Rec).map
        Prod.fst).Nodup) ∧
    (("path", JVal.jstr "HIJACK")
        ∈ ([("path", JVal.jstr "HIJACK"), ("note", JVal.jstr "n")] : Rec)) ∧
    (∃ d' item,
      docPublishE "b" "r" emptyDoc
          ⟨.figures, "x.png", "t", "d",
           [("path", .jstr "HIJACK"), ("note", .jstr "n")], "T"⟩
        = .ok (d', item) ∧
      lookupKey item "path" = some (.jstr "HIJACK")) :=
  ⟨rfl, by decide, by decide,
   extra_overrides_reserved_field "b" "r" emptyDoc .figures "x.png" "t" "d"
     "T" [("path", .jstr "HIJACK"), ("note", .jstr "n")] "path"
     (.jstr "HIJACK") [] rfl (by decide) (by decide)⟩

/-- **C3 (counterexample).** Offline mode does not accumulate state: after
publishing one record per category, the in-memory document surfaced by the
third offline call holds a single record with id 1, while the online
sequence of the same three calls yields one document holding all three
records with ids 1, 2, 3.  The two shapes differ even after erasing
`created_at` everywhere, refuting the claimed field-for-field match. -/
theorem offline_three_differs_from_online_three :
    (match publishOffline "b" "r" ⟨.artifacts, "a.bin", "", "", [], "T3"⟩ with
     | .ok (doc, _) => some (scrubDoc doc)
     | .error _ => none)
      ≠ (match publishSeqOnline "b" "r" ⟨none, 0⟩
            [⟨.figures, "f.png", "", "", [], "T1"⟩,
             ⟨.tables, "t.csv", "", "", [], "T2"⟩,
             ⟨.artifacts, "a.bin", "", "", [], "T3"⟩] with
         | .ok s' => (docOf s').map scrubDoc
         | .error _ => none) := by decide

/-- **C3 (amended).** In offline mode every publish call reads a fresh empty
document, so the document surfaced by one offline publish equals — field for
field except `created_at` — the document an online publish of that same
single call against an absent catalog object produces (one record, id 1).
The claimed equality for a three-call accumulated document fails, because
offline mode does not accumulate (see the counterexample). -/
theorem offline_publish_matches_online_first_publish (bucket root : String)
    (cat : Cat) (rel ti de : String) (ex : Rec) (now1 now2 : String) :
    ∃ dOff itemOff dOn itemOn,
      publishOffline bucket root ⟨cat, rel, ti, de, ex, now1⟩
        = .ok (dOff, itemOff) ∧
      publishOnline bucket root ⟨none, 0⟩ ⟨cat, rel, ti, de, ex, now2⟩
        = (⟨some (.valid dOn), 1⟩, .ok itemOn) ∧
      scrubDoc dOff = scrubDoc dOn ∧
      scrubRec itemOff = scrubRec itemOn := by
  refine ⟨setdefaultAppend emptyDoc cat
      (buildItem bucket root ⟨cat, rel, ti, de, ex, now1⟩ 1),
    buildItem bucket root ⟨cat, rel, ti, de, ex, now1⟩ 1,
    setdefaultAppend emptyDoc cat
      (buildItem bucket root ⟨cat, rel, ti, de, ex, now2⟩ 1),
    buildItem bucket root ⟨cat, rel, ti, de, ex, now2⟩ 1, ?_, ?_, ?_, ?_⟩
  · rfl
  · rfl
  · have hitem := scrubRec_buildItem bucket root cat rel ti de ex now1 now2 1
    cases cat <;>
      simp [scrubDoc, setdefaultAppend, Doc.set, Doc.get, emptyDoc, hitem]
  · exact scrubRec_buildItem bucket root cat rel ti de ex now1 now2 1

/-- The record publisher B writes in the C1 race (id 1, path `b.png`). -/
def raceRecB : Rec :=
  [("id", .jnum 1), ("path", .jstr "bkt/req/b.png"), ("title", .jstr ""),
   ("desc", .jstr ""), ("created_at", .jstr "TBZ")]

/-- The document B's successful write installs. -/
def raceDocB : Doc := ⟨some [raceRecB], some [], some []⟩

/-- The record publisher A writes after B (id 1 again, path `a.png`). -/
def raceRecA : Rec :=
  [("id", .jnum 1), ("path", .jstr "bkt/req/a.png"), ("title", .jstr ""),
   ("desc", .jstr ""), ("created_at", .jstr "TAZ")]

/-- The document A's write installs, clobbering B's record. -/
def raceDocA : Doc := ⟨some [raceRecA], some [], some []⟩

/-- **C1.** The claimed precondition — the conditional write succeeds only if
the remote generation still equals the one observed at the step-1 content
read — fails on the code: `_publish` re-`reload()`s the blob immediately
before writing (publisher.py:65), so the precondition uses the *latest*
generation.  Concretely: A loads the document at generation 1; B then runs a
whole publish (also read at generation 1) and bumps the store to
generation 2; A's conditional write now succeeds against generation 2 with
its stale document, so both writers that read generation 1 succeed and B's
record is silently lost from the final document. -/
theorem generation_refresh_loses_concurrent_update :
    loadPhase ⟨some (.valid emptyDoc), 1⟩ = .ok (emptyDoc, false, 1) ∧
    publishOnline "bkt" "req" ⟨some (.valid emptyDoc), 1⟩
        ⟨.figures, "b.png", "", "", [], "TB"⟩
      = (⟨some (.valid raceDocB), 2⟩, .ok raceRecB) ∧
    finishPublish "bkt" "req" ⟨some (.valid raceDocB), 2⟩ emptyDoc false
        ⟨.figures, "a.png", "", "", [], "TA"⟩
      = (⟨some (.valid raceDocA), 3⟩, .ok raceRecA) ∧
    raceRecB ∉ allRecords raceDocA ∧
    liveGen ⟨some (.valid raceDocB), 2⟩ ≠ 1 := by decide

/-- **C4.** The two resolver modes do not compute the same result on the same
listing: with the single entry `r/data/sub/old_report.csv` (mirrored in the
mounted filesystem) and target basename `report.csv`, the local mode keeps
nothing (the entry's basename `old_report.csv` differs), while the remote
mode's `endswith(target)` test (context.py:133) accepts it and returns it. -/
theorem resolver_modes_disagree_on_suffix_match :
    resolveLocal ⟨["m/r/data/sub/old_report.csv"], ["m/r/data"],
        ["r/data/sub/old_report.csv"]⟩ "m" "r" "report.csv"
      = .error .notFound ∧
    resolveRemote ⟨["m/r/data/sub/old_report.csv"], ["m/r/data"],
        ["r/data/sub/old_report.csv"]⟩ "m" "r" "report.csv"
      = .ok "m/r/data/sub/old_report.csv" := by decide

/-- **C7.** In online mode the resolver returns an entry whose final segment
differs from the requested basename: with no exact match and the single
listing entry `r2/data/deep/mytable.csv`, resolving `table.csv` returns that
entry (because `mytable.csv` merely ends with `table.csv`), whereas the
claimed algorithm collects only basename-equal entries and would fail with
`NotFound`. -/
theorem resolver_online_returns_non_basename_entry :
    resolveRemote ⟨[], ["m2/r2/data"], ["r2/data/deep/mytable.csv"]⟩
        "m2" "r2" "table.csv"
      = .ok "m2/r2/data/deep/mytable.csv" ∧
    lastSeg "m2/r2/data/deep/mytable.csv" ≠ "table.csv" := by decide

end Conductor
